import Mathlib

/-!
Shallow embedding of the todo service core (package `service`, file
`internal/service/todo_service.go` of the binary-search variant, together with
`internal/models`): the sorted index (binary search, sorted insertion, removal),
the persistence layer (load with defensive re-sort, save as full rewrite), the
ID allocator, validation, and the service operations Create/Update/Delete/GetAll.

Machine integers are modelled as `Int` (the identifiers in play never approach
the 64-bit range). The backing JSON file is modelled as `Option (List Todo)`:
`none` is a missing file, `some l` a file whose payload deserializes to `l`
(serialization of the record array is lossless, so it is elided). Go's
`sort.Slice` with comparator `ID <` is modelled by insertion sort with the
comparator `ID ≤`; on lists the comparator sorts, the two agree.
-/

/-- The record: Go struct `models.Todo { ID int; Contents string }`. -/
structure Todo where
  ID : Int
  Contents : String
deriving Repr, DecidableEq

instance : Inhabited Todo := ⟨⟨0, ""⟩⟩

deriving instance DecidableEq for Except

/-- Request body: Go struct `models.TodoRequest { Contents string }`. -/
structure TodoRequest where
  Contents : String
deriving Repr, DecidableEq

/-- The error kinds the service produces (Go returns `fmt.Errorf` values whose
messages distinguish exactly these cases). -/
inductive SvcError where
  | validation (msg : String)
  | notFound (id : Int)
deriving Repr, DecidableEq

/-- The backing store: `none` models a missing file, `some l` a file holding
the serialized record array `l`. -/
abbrev Store : Type := Option (List Todo)

namespace TodoService

/-- Loop of `binarySearchTodoByID`. Go keeps `left` and `right` with
`right = len-1` (so `right = -1` on the empty slice); here `rp` stands for
`right + 1`, so the loop guard `left <= right` is `left < rp` and
`mid = left + (right-left)/2` is `left + (rp-1-left)/2`. Indexing is via
`getD` with a default; every call keeps `mid` within bounds. -/
def bsGo (todos : List Todo) (targetID : Int) (left rp : Nat) : Int :=
  if h : left < rp then
    let mid := left + (rp - 1 - left) / 2
    let midID := (todos.getD mid default).ID
    if midID = targetID then Int.ofNat mid
    else if midID < targetID then bsGo todos targetID (mid + 1) rp
    else bsGo todos targetID left mid
  else
    -1
termination_by rp - left
decreasing_by
  · have : (rp - 1 - left) / 2 ≤ rp - 1 - left := Nat.div_le_self _ _
    omega
  · have : (rp - 1 - left) / 2 ≤ rp - 1 - left := Nat.div_le_self _ _
    omega

/-- Go `binarySearchTodoByID`: classic binary search over `[0, len-1]`,
returning the index on a hit and `-1` when the interval empties. -/
def binarySearchTodoByID (todos : List Todo) (targetID : Int) : Int :=
  bsGo todos targetID 0 todos.length

/-- Loop of `insertTodoSorted`: leftmost-insertion-point binary search with
`left = 0`, `right = len`, guard `left < right`, narrowing on
`todos[mid].ID < newID`. -/
def ipGo (todos : List Todo) (newID : Int) (left right : Nat) : Nat :=
  if h : left < right then
    let mid := left + (right - left) / 2
    if (todos.getD mid default).ID < newID then ipGo todos newID (mid + 1) right
    else ipGo todos newID left mid
  else left
termination_by right - left
decreasing_by
  · have : (right - left) / 2 ≤ right - left := Nat.div_le_self _ _
    omega
  · have : (right - left) / 2 ≤ right - left := Nat.div_le_self _ _
    omega

/-- The insertion point computed by `insertTodoSorted`. -/
def insertionPoint (todos : List Todo) (newID : Int) : Nat :=
  ipGo todos newID 0 todos.length

/-- Go `insertTodoSorted`: on an empty slice just append; otherwise find the
insertion point and build `result` of length `len+1` with
`result[:left] = todos[:left]`, `result[left] = newTodo`,
`result[left+1:] = todos[left:]`. -/
def insertTodoSorted (todos : List Todo) (newTodo : Todo) : List Todo :=
  if todos.length = 0 then todos ++ [newTodo]
  else
    let left := insertionPoint todos newTodo.ID
    todos.take left ++ newTodo :: todos.drop left

/-- The excision in `DeleteTodo`:
`newTodos = append(append(make(cap len-1), todos[:index]...), todos[index+1:]...)`. -/
def removeAt (todos : List Todo) (index : Nat) : List Todo :=
  todos.take index ++ todos.drop (index + 1)

/-- Go `getNextID`: fold that tracks the running maximum starting at 0,
then adds 1. -/
def getNextID (todos : List Todo) : Int :=
  (todos.foldl (fun maxID todo => if todo.ID > maxID then todo.ID else maxID) 0) + 1

/-- Go `strings.TrimSpace`: removes leading and trailing whitespace. Lean's
own `String.trim` is defined through substring loops that the kernel cannot
evaluate, so the same trimming is modelled structurally on the character
list. -/
def trimSpace (s : String) : String :=
  ⟨((s.data.dropWhile Char.isWhitespace).reverse.dropWhile Char.isWhitespace).reverse⟩

/-- Go `validateTodoRequest`: trimmed contents must be non-empty. -/
def validateTodoRequest (req : TodoRequest) : Option SvcError :=
  if trimSpace req.Contents = "" then some (.validation "contents cannot be empty") else none

/-- Go `sort.Slice(todos, func(i,j) { return todos[i].ID < todos[j].ID })`,
modelled as insertion sort under the reflexive closure of the comparator. -/
def sortByID (todos : List Todo) : List Todo :=
  List.insertionSort (fun a b => a.ID ≤ b.ID) todos

/-- Go `loadTodos`: a missing file yields the empty sequence; otherwise the
deserialized array is re-sorted by ID before being returned. -/
def loadTodos (store : Store) : List Todo :=
  match store with
  | none => []
  | some todos => sortByID todos

/-- Go `saveTodos`: full rewrite of the backing file with the given sequence. -/
def saveTodos (todos : List Todo) (_store : Store) : Store :=
  some todos

/-- Go `GetAllTodos`: returns `loadTodos` verbatim. -/
def GetAllTodos (store : Store) : List Todo :=
  loadTodos store

/-- Go `CreateTodo`: validate, load, allocate the next ID, trim the contents,
insert sorted, save. On a validation error the store is untouched. -/
def CreateTodo (req : TodoRequest) (store : Store) : Except SvcError Todo × Store :=
  match validateTodoRequest req with
  | some e => (.error e, store)
  | none =>
    let todos := loadTodos store
    let newTodo : Todo := ⟨getNextID todos, trimSpace req.Contents⟩
    let todos2 := insertTodoSorted todos newTodo
    (.ok newTodo, saveTodos todos2 store)

/-- Go `UpdateTodo`: validate, load, binary-search the id; if absent fail
NotFound, else replace the contents in place and save. -/
def UpdateTodo (id : Int) (req : TodoRequest) (store : Store) :
    Except SvcError Todo × Store :=
  match validateTodoRequest req with
  | some e => (.error e, store)
  | none =>
    let todos := loadTodos store
    let index := binarySearchTodoByID todos id
    if index = -1 then (.error (.notFound id), store)
    else
      let old := todos.getD index.toNat default
      let todos2 := todos.set index.toNat { old with Contents := trimSpace req.Contents }
      (.ok (todos2.getD index.toNat default), saveTodos todos2 store)

/-- Go `DeleteTodo`: load, binary-search the id; if absent fail NotFound, else
excise the element at the found index and save. -/
def DeleteTodo (id : Int) (store : Store) : Except SvcError Unit × Store :=
  let todos := loadTodos store
  let index := binarySearchTodoByID todos id
  if index = -1 then (.error (.notFound id), store)
  else
    let newTodos := removeAt todos index.toNat
    (.ok (), saveTodos newTodos store)

/-- Strictly ascending by identifier: the sort invariant of the data model. -/
def StrictAsc (l : List Todo) : Prop :=
  l.Pairwise (fun a b => a.ID < b.ID)

instance : DecidablePred StrictAsc := fun l =>
  inferInstanceAs (Decidable (l.Pairwise _))

/-! Fuel-indexed structural twins of the two search loops, used to evaluate
the service on concrete inputs: they agree with the loops whenever the fuel
covers the interval width (proved below), and being structurally recursive
they kernel-evaluate. -/

def bsGoF (todos : List Todo) (targetID : Int) : Nat → Nat → Nat → Int
  | 0, _, _ => -1
  | fuel + 1, left, rp =>
    if left < rp then
      let mid := left + (rp - 1 - left) / 2
      let midID := (todos.getD mid default).ID
      if midID = targetID then Int.ofNat mid
      else if midID < targetID then bsGoF todos targetID fuel (mid + 1) rp
      else bsGoF todos targetID fuel left mid
    else -1

def ipGoF (todos : List Todo) (newID : Int) : Nat → Nat → Nat → Nat
  | 0, left, _ => left
  | fuel + 1, left, right =>
    if left < right then
      let mid := left + (right - left) / 2
      if (todos.getD mid default).ID < newID then ipGoF todos newID fuel (mid + 1) right
      else ipGoF todos newID fuel left mid
    else left

/-! Model of the concurrency discipline actually present in the code. The
`sync.RWMutex` in `TodoService` is acquired inside `loadTodos` (read lock) and
inside `saveTodos` (write lock) separately; no lock spans a whole
load→mutate→save cycle. Under those locks the schedule
load₁, load₂, save₁, save₂ of two concurrent `CreateTodo` calls is admitted:
each call computes its mutation from the snapshot its own load returned. -/

/-- The pure mutation `CreateTodo` applies between its load and its save. -/
def createMutate (req : TodoRequest) (snapshot : List Todo) : Todo × List Todo :=
  let newTodo : Todo := ⟨getNextID snapshot, trimSpace req.Contents⟩
  (newTodo, insertTodoSorted snapshot newTodo)

/-- Two `CreateTodo` calls racing under the per-call locks, in the admitted
schedule load₁, load₂, save₁, save₂. -/
def interleavedCreate2 (req1 req2 : TodoRequest) (store : Store) : Store :=
  let snap1 := loadTodos store
  let snap2 := loadTodos store
  let store1 := saveTodos (createMutate req1 snap1).2 store
  saveTodos (createMutate req2 snap2).2 store1

/-- The same two calls executed one after the other. -/
def sequentialCreate2 (req1 req2 : TodoRequest) (store : Store) : Store :=
  (CreateTodo req2 (CreateTodo req1 store).2).2


/-! Basic facts about indexing and the sort invariant. -/

lemma getD_eq_elem (l : List Todo) (i : Nat) (h : i < l.length) :
    l.getD i default = l[i] := by
  simp [List.getD_eq_getElem?_getD, List.getElem?_eq_getElem h]

lemma strictAsc_id_lt (S : List Todo) (hs : StrictAsc S) {i j : Nat}
    (hij : i < j) (hj : j < S.length) :
    (S.getD i default).ID < (S.getD j default).ID := by
  have hi : i < S.length := lt_trans hij hj
  rw [getD_eq_elem S i hi, getD_eq_elem S j hj]
  exact List.pairwise_iff_getElem.mp hs i j hi hj hij

lemma strictAsc_id_le (S : List Todo) (hs : StrictAsc S) {i j : Nat}
    (hij : i ≤ j) (hj : j < S.length) :
    (S.getD i default).ID ≤ (S.getD j default).ID := by
  rcases Nat.lt_or_ge i j with h | h
  · exact le_of_lt (strictAsc_id_lt S hs h hj)
  · have : i = j := le_antisymm hij h
    rw [this]

/-! The binary search `bsGo` never leaves the interval: the midpoint is
strictly below `rp`. -/

lemma mid_lt_rp {left rp : Nat} (h : left < rp) : left + (rp - 1 - left) / 2 < rp := by
  have := Nat.div_le_self (rp - 1 - left) 2
  omega

/-- Soundness of the search loop: the result is `-1` or a valid index whose
record carries the target identifier. Needs no sortedness. -/
lemma bsGo_sound (todos : List Todo) (t : Int) (left rp : Nat) (hrp : rp ≤ todos.length) :
    bsGo todos t left rp = -1 ∨
      ∃ i : Nat, bsGo todos t left rp = Int.ofNat i ∧ i < todos.length ∧
        (todos.getD i default).ID = t := by
  induction left, rp using bsGo.induct todos t with
  | case1 left rp h mid midID hmid =>
    rw [bsGo.eq_def]
    simp only [dif_pos h]
    rw [if_pos hmid]
    right
    exact ⟨mid, rfl, lt_of_lt_of_le (mid_lt_rp h) hrp, hmid⟩
  | case2 left rp h mid midID hne hlt ih =>
    rw [bsGo.eq_def]
    simp only [dif_pos h]
    rw [if_neg hne, if_pos hlt]
    exact ih hrp
  | case3 left rp h mid midID hne hnlt ih =>
    rw [bsGo.eq_def]
    simp only [dif_pos h]
    rw [if_neg hne, if_neg hnlt]
    exact ih (le_trans (le_of_lt (mid_lt_rp h)) hrp)
  | case4 left rp h =>
    rw [bsGo.eq_def]
    rw [dif_neg h]
    exact Or.inl rfl

/-- Completeness of the search loop on a sorted sequence: if the target sits
at an index inside the current interval, the loop does not answer `-1`. -/
lemma bsGo_complete (todos : List Todo) (t : Int) (hs : StrictAsc todos)
    (j : Nat) (hj : j < todos.length) (hjt : (todos.getD j default).ID = t) :
    ∀ left rp, rp ≤ todos.length → left ≤ j → j < rp → bsGo todos t left rp ≠ -1 := by
  intro left rp
  induction left, rp using bsGo.induct todos t with
  | case1 left rp h mid midID hmid =>
    intro _ _ _
    rw [bsGo.eq_def]
    simp only [dif_pos h]
    rw [if_pos hmid]
    intro hcontra
    have hnn : (0 : Int) ≤ Int.ofNat mid := Int.ofNat_nonneg mid
    rw [hcontra] at hnn
    norm_num at hnn
  | case2 left rp h mid midID hne hlt ih =>
    intro hrp hlj hjr
    rw [bsGo.eq_def]
    simp only [dif_pos h]
    rw [if_neg hne, if_pos hlt]
    have hmid_len : mid < todos.length := lt_of_lt_of_le (mid_lt_rp h) hrp
    have hmidj : mid < j := by
      by_contra hc
      push_neg at hc
      have hle := strictAsc_id_le todos hs hc hmid_len
      rw [hjt] at hle
      exact absurd (lt_of_le_of_lt hle hlt) (lt_irrefl t)
    exact ih hrp hmidj hjr
  | case3 left rp h mid midID hne hnlt ih =>
    intro hrp hlj hjr
    rw [bsGo.eq_def]
    simp only [dif_pos h]
    rw [if_neg hne, if_neg hnlt]
    have hmid_len : mid < todos.length := lt_of_lt_of_le (mid_lt_rp h) hrp
    have hjmid : j < mid := by
      by_contra hc
      push_neg at hc
      have hle := strictAsc_id_le todos hs hc hj
      rw [hjt] at hle
      rcases lt_or_eq_of_le hle with h1 | h1
      · exact absurd h1 hnlt
      · exact hne h1
    exact ih (le_trans (le_of_lt (mid_lt_rp h)) hrp) hlj hjmid
  | case4 left rp h =>
    intro _ hlj hjr
    exact absurd (lt_of_le_of_lt hlj hjr) h

/-- The absent answer characterises absence on a sorted sequence. -/
lemma binarySearch_neg_one_iff (S : List Todo) (t : Int) (hs : StrictAsc S) :
    binarySearchTodoByID S t = -1 ↔ ∀ x ∈ S, x.ID ≠ t := by
  constructor
  · intro h x hx hxt
    obtain ⟨j, hj, hxj⟩ := List.mem_iff_getElem.mp hx
    have hjt : (S.getD j default).ID = t := by
      rw [getD_eq_elem S j hj, hxj, hxt]
    exact bsGo_complete S t hs j hj hjt 0 S.length le_rfl (Nat.zero_le j) hj h
  · intro h
    rcases bsGo_sound S t 0 S.length le_rfl with h1 | ⟨i, h1, hi, hit⟩
    · exact h1
    · exfalso
      have hmem : S.getD i default ∈ S := by
        rw [getD_eq_elem S i hi]
        exact List.getElem_mem hi
      exact h _ hmem hit

/-- A non-absent answer is a valid index carrying the target identifier.
Needs no sortedness. -/
lemma binarySearch_found (S : List Todo) (t : Int)
    (h : binarySearchTodoByID S t ≠ -1) :
    ∃ i : Nat, binarySearchTodoByID S t = Int.ofNat i ∧ i < S.length ∧
      (S.getD i default).ID = t := by
  rcases bsGo_sound S t 0 S.length le_rfl with h1 | h2
  · exact absurd h1 h
  · exact h2

/-! Index bookkeeping for `take` and `drop`. -/

lemma mem_take_idx {S : List Todo} {p : Nat} {x : Todo} (hx : x ∈ S.take p) :
    ∃ i : Nat, i < p ∧ i < S.length ∧ S.getD i default = x := by
  obtain ⟨i, hi, hix⟩ := List.mem_iff_getElem.mp hx
  have hlen : i < min p S.length := by
    simpa [List.length_take] using hi
  have hp : i < p := lt_of_lt_of_le hlen (min_le_left _ _)
  have hS : i < S.length := lt_of_lt_of_le hlen (min_le_right _ _)
  refine ⟨i, hp, hS, ?_⟩
  rw [List.getElem_take] at hix
  rw [getD_eq_elem S i hS]
  exact hix

lemma mem_drop_idx {S : List Todo} {p : Nat} {x : Todo} (hx : x ∈ S.drop p) :
    ∃ i : Nat, p ≤ i ∧ i < S.length ∧ S.getD i default = x := by
  obtain ⟨j, hj, hjx⟩ := List.mem_iff_getElem.mp hx
  have hlen : p + j < S.length := by
    have := hj
    rw [List.length_drop] at this
    omega
  refine ⟨p + j, Nat.le_add_right _ _, hlen, ?_⟩
  rw [List.getElem_drop] at hjx
  rw [getD_eq_elem S (p + j) hlen]
  exact hjx

/-! The insertion-point loop of `insertTodoSorted`: its result is the leftmost
index whose identifier is at least the new one. -/

lemma ipGo_spec (todos : List Todo) (newID : Int) (hs : StrictAsc todos) :
    ∀ left right, right ≤ todos.length → left ≤ right →
      left ≤ ipGo todos newID left right ∧ ipGo todos newID left right ≤ right ∧
      (∀ i, left ≤ i → i < ipGo todos newID left right →
        (todos.getD i default).ID < newID) ∧
      (∀ i, ipGo todos newID left right ≤ i → i < right →
        ¬ (todos.getD i default).ID < newID) := by
  intro left right
  induction left, right using ipGo.induct todos newID with
  | case1 left right h mid hlt ih =>
    intro hlen hlr
    have hstep : ipGo todos newID left right = ipGo todos newID (mid + 1) right := by
      conv_lhs => rw [ipGo.eq_def]
      simp only [dif_pos h]
      rw [if_pos hlt]
    rw [hstep]
    have hmid_right : mid < right := by
      show left + (right - left) / 2 < right
      have := Nat.div_le_self (right - left) 2
      omega
    have hmid_left : left ≤ mid := Nat.le_add_right _ _
    obtain ⟨ih1, ih2, ih3, ih4⟩ := ih hlen (by omega)
    refine ⟨by omega, ih2, ?_, ih4⟩
    intro i hli hip
    rcases Nat.lt_or_ge i (mid + 1) with hc | hc
    · have hmid_len : mid < todos.length := lt_of_lt_of_le hmid_right hlen
      have hle := strictAsc_id_le todos hs (Nat.lt_succ_iff.mp hc) hmid_len
      exact lt_of_le_of_lt hle hlt
    · exact ih3 i hc hip
  | case2 left right h mid hnlt ih =>
    intro hlen hlr
    have hstep : ipGo todos newID left right = ipGo todos newID left mid := by
      conv_lhs => rw [ipGo.eq_def]
      simp only [dif_pos h]
      rw [if_neg hnlt]
    rw [hstep]
    have hmid_right : mid < right := by
      show left + (right - left) / 2 < right
      have := Nat.div_le_self (right - left) 2
      omega
    have hmid_left : left ≤ mid := Nat.le_add_right _ _
    have hmid_len : mid < todos.length := lt_of_lt_of_le hmid_right hlen
    obtain ⟨ih1, ih2, ih3, ih4⟩ := ih (le_trans (le_of_lt hmid_right) hlen) (by omega)
    refine ⟨ih1, by omega, ih3, ?_⟩
    intro i hpi hir hcontra
    rcases Nat.lt_or_ge i mid with hc | hc
    · exact ih4 i hpi hc hcontra
    · have hir_len : i < todos.length := lt_of_lt_of_le hir hlen
      have hle := strictAsc_id_le todos hs hc hir_len
      exact hnlt (lt_of_le_of_lt hle hcontra)
  | case3 left right h =>
    intro hlen hlr
    rw [ipGo.eq_def]
    rw [dif_neg h]
    exact ⟨le_rfl, by omega, fun i h1 h2 => absurd (lt_of_le_of_lt h1 h2) (lt_irrefl _),
      fun i h1 h2 => absurd (lt_of_le_of_lt (le_trans (by omega) h1) h2) h⟩

lemma insertionPoint_spec (todos : List Todo) (newID : Int) (hs : StrictAsc todos) :
    insertionPoint todos newID ≤ todos.length ∧
    (∀ i, i < insertionPoint todos newID → (todos.getD i default).ID < newID) ∧
    (∀ i, insertionPoint todos newID ≤ i → i < todos.length →
      ¬ (todos.getD i default).ID < newID) := by
  obtain ⟨h1, h2, h3, h4⟩ := ipGo_spec todos newID hs 0 todos.length le_rfl (Nat.zero_le _)
  exact ⟨h2, fun i hi => h3 i (Nat.zero_le i) hi, h4⟩

/-- The structural shape of `insertTodoSorted`: prefix unchanged, the new
record at the insertion point, the suffix shifted right by one. -/
lemma insertTodoSorted_eq (todos : List Todo) (r : Todo) :
    insertTodoSorted todos r =
      todos.take (insertionPoint todos r.ID) ++ r :: todos.drop (insertionPoint todos r.ID) := by
  unfold insertTodoSorted
  by_cases h : todos.length = 0
  · rw [if_pos h]
    rw [List.eq_nil_of_length_eq_zero h]
    simp
  · rw [if_neg h]

/-! Properties of `insertTodoSorted` on a strictly ascending sequence. -/

lemma insertSorted_strictAsc (S : List Todo) (r : Todo) (hs : StrictAsc S)
    (hnot : ∀ x ∈ S, x.ID ≠ r.ID) : StrictAsc (insertTodoSorted S r) := by
  obtain ⟨hp_le, hlow, hhigh⟩ := insertionPoint_spec S r.ID hs
  rw [insertTodoSorted_eq]
  unfold StrictAsc
  rw [List.pairwise_append]
  refine ⟨List.Pairwise.sublist (List.take_sublist _ _) hs, ?_, ?_⟩
  · rw [List.pairwise_cons]
    constructor
    · intro x hx
      obtain ⟨i, hpi, hilen, hieq⟩ := mem_drop_idx hx
      have hge := hhigh i hpi hilen
      push_neg at hge
      rw [hieq] at hge
      have hxmem : x ∈ S := (List.drop_sublist _ _).mem hx
      exact lt_of_le_of_ne hge (Ne.symm (hnot x hxmem))
    · exact List.Pairwise.sublist (List.drop_sublist _ _) hs
  · intro a ha b hb
    obtain ⟨i, hip, hilen, hieq⟩ := mem_take_idx ha
    rcases List.mem_cons.mp hb with rfl | hb2
    · rw [← hieq]
      exact hlow i hip
    · obtain ⟨j, hpj, hjlen, hjeq⟩ := mem_drop_idx hb2
      rw [← hieq, ← hjeq]
      exact strictAsc_id_lt S hs (lt_of_lt_of_le hip hpj) hjlen

lemma insertSorted_length (S : List Todo) (r : Todo) (hs : StrictAsc S) :
    (insertTodoSorted S r).length = S.length + 1 := by
  obtain ⟨hp_le, _, _⟩ := insertionPoint_spec S r.ID hs
  rw [insertTodoSorted_eq]
  simp [List.length_take, List.length_drop]
  omega

lemma insertSorted_perm (S : List Todo) (r : Todo) :
    (insertTodoSorted S r).Perm (r :: S) := by
  rw [insertTodoSorted_eq]
  have h : (S.take (insertionPoint S r.ID) ++ r :: S.drop (insertionPoint S r.ID)).Perm
      (r :: (S.take (insertionPoint S r.ID) ++ S.drop (insertionPoint S r.ID))) :=
    List.perm_middle
  simpa [List.take_append_drop] using h

/-! Properties of the defensive re-sort in `loadTodos`. -/

instance : IsTotal Todo (fun a b => a.ID ≤ b.ID) := ⟨fun a b => Int.le_total a.ID b.ID⟩

instance : IsTrans Todo (fun a b => a.ID ≤ b.ID) :=
  ⟨fun _ _ _ h1 h2 => le_trans h1 h2⟩

lemma sortByID_sorted (l : List Todo) :
    (sortByID l).Pairwise (fun a b => a.ID ≤ b.ID) :=
  List.sorted_insertionSort _ l

lemma sortByID_of_sorted {l : List Todo} (h : l.Pairwise (fun a b => a.ID ≤ b.ID)) :
    sortByID l = l :=
  List.Sorted.insertionSort_eq h

lemma strictAsc_weaken {l : List Todo} (h : StrictAsc l) :
    l.Pairwise (fun a b => a.ID ≤ b.ID) :=
  h.imp (fun hab => le_of_lt hab)

lemma loadTodos_some_sorted (S : List Todo) (hs : StrictAsc S) :
    loadTodos (some S) = S :=
  sortByID_of_sorted (strictAsc_weaken hs)

/-! Properties of the excision performed by `DeleteTodo`. -/

lemma removeAt_sublist (S : List Todo) (i : Nat) : (removeAt S i).Sublist S := by
  have h1 : S.drop (i + 1) = (S.drop i).drop 1 := by
    rw [List.drop_drop, Nat.add_comm]
  have h2 : (S.drop (i + 1)).Sublist (S.drop i) := by
    rw [h1]
    exact List.drop_sublist _ _
  have h3 : (S.take i ++ S.drop (i + 1)).Sublist (S.take i ++ S.drop i) :=
    List.Sublist.append_left h2 _
  unfold removeAt
  rw [List.take_append_drop] at h3
  exact h3

lemma removeAt_strictAsc (S : List Todo) (i : Nat) (hs : StrictAsc S) :
    StrictAsc (removeAt S i) :=
  List.Pairwise.sublist (removeAt_sublist S i) hs

lemma removeAt_id_not_mem (S : List Todo) (i : Nat) (hs : StrictAsc S)
    (hi : i < S.length) :
    ∀ x ∈ removeAt S i, x.ID ≠ (S.getD i default).ID := by
  intro x hx
  unfold removeAt at hx
  rcases List.mem_append.mp hx with h1 | h1
  · obtain ⟨j, hji, hjlen, hjeq⟩ := mem_take_idx h1
    rw [← hjeq]
    exact ne_of_lt (strictAsc_id_lt S hs hji hi)
  · obtain ⟨j, hji, hjlen, hjeq⟩ := mem_drop_idx h1
    rw [← hjeq]
    exact (ne_of_lt (strictAsc_id_lt S hs (by omega) hjlen)).symm

lemma bsGo_eq_fuel (todos : List Todo) (t : Int) :
    ∀ fuel left rp, rp - left ≤ fuel → bsGo todos t left rp = bsGoF todos t fuel left rp := by
  intro fuel
  induction fuel with
  | zero =>
    intro left rp hf
    rw [bsGo.eq_def]
    rw [dif_neg (by omega)]
    rfl
  | succ fuel ih =>
    intro left rp hf
    rw [bsGo.eq_def, bsGoF]
    simp only []
    by_cases h : left < rp
    · rw [dif_pos h, if_pos h]
      have hmid := mid_lt_rp h
      by_cases h1 : (todos.getD (left + (rp - 1 - left) / 2) default).ID = t
      · rw [if_pos h1, if_pos h1]
      · rw [if_neg h1, if_neg h1]
        by_cases h2 : (todos.getD (left + (rp - 1 - left) / 2) default).ID < t
        · rw [if_pos h2, if_pos h2]
          exact ih _ _ (by omega)
        · rw [if_neg h2, if_neg h2]
          exact ih _ _ (by omega)
    · rw [dif_neg h, if_neg h]

lemma ipGo_eq_fuel (todos : List Todo) (nid : Int) :
    ∀ fuel left right, right - left ≤ fuel →
      ipGo todos nid left right = ipGoF todos nid fuel left right := by
  intro fuel
  induction fuel with
  | zero =>
    intro left right hf
    rw [ipGo.eq_def]
    rw [dif_neg (by omega)]
    rfl
  | succ fuel ih =>
    intro left right hf
    rw [ipGo.eq_def, ipGoF]
    simp only []
    by_cases h : left < right
    · rw [dif_pos h, if_pos h]
      have hmid : left + (right - left) / 2 < right := by
        have := Nat.div_le_self (right - left) 2
        omega
      by_cases h1 : (todos.getD (left + (right - left) / 2) default).ID < nid
      · rw [if_pos h1, if_pos h1]
        exact ih _ _ (by omega)
      · rw [if_neg h1, if_neg h1]
        exact ih _ _ (by omega)
    · rw [dif_neg h, if_neg h]

/-- Evaluation form of `binarySearchTodoByID`: the length always covers the
initial interval, so the fuel twin computes the same answer. -/
lemma binarySearch_eval (S : List Todo) (t : Int) :
    binarySearchTodoByID S t = bsGoF S t S.length 0 S.length :=
  bsGo_eq_fuel S t S.length 0 S.length (by omega)

/-- Evaluation form of `insertionPoint`. -/
lemma insertionPoint_eval (S : List Todo) (nid : Int) :
    insertionPoint S nid = ipGoF S nid S.length 0 S.length :=
  ipGo_eq_fuel S nid S.length 0 S.length (by omega)

/-! Pointwise facts about `List.set`, phrased through `getD`. -/

lemma getD_set_self (S : List Todo) (i : Nat) (a : Todo) (hi : i < S.length) :
    (S.set i a).getD i default = a := by
  rw [getD_eq_elem _ i (by simpa using hi)]
  exact List.getElem_set_self (by simpa using hi)

lemma getD_set_ne (S : List Todo) (i j : Nat) (a : Todo) (hj : j < S.length)
    (hij : i ≠ j) : (S.set i a).getD j default = S.getD j default := by
  rw [getD_eq_elem _ j (by simpa using hj), getD_eq_elem S j hj]
  exact List.getElem_set_ne hij (by simpa using hj)

lemma map_id_set (S : List Todo) (i : Nat) (hi : i < S.length) (c : String) :
    (S.set i ⟨(S.getD i default).ID, c⟩).map Todo.ID = S.map Todo.ID := by
  apply List.ext_getElem
  · simp
  · intro j h1 h2
    simp only [List.getElem_map]
    by_cases hij : i = j
    · subst hij
      rw [List.getElem_set_self (by simpa using hi)]
      rw [getD_eq_elem S i hi]
    · rw [List.getElem_set_ne hij]

/-- How `UpdateTodo` computes on a stored, strictly ascending sequence when the
search finds the target at index `i`. -/
lemma updateTodo_eval (S : List Todo) (t : Int) (req : TodoRequest)
    (hs : StrictAsc S) (hvalid : ¬ trimSpace req.Contents = "")
    (i : Nat) (_hi : i < S.length)
    (hfound : binarySearchTodoByID S t = Int.ofNat i) :
    UpdateTodo t req (some S) =
      (.ok ((S.set i ⟨(S.getD i default).ID, trimSpace req.Contents⟩).getD i default),
        some (S.set i ⟨(S.getD i default).ID, trimSpace req.Contents⟩)) := by
  have hv : validateTodoRequest req = none := by
    unfold validateTodoRequest
    rw [if_neg hvalid]
  have hload : loadTodos (some S) = S := loadTodos_some_sorted S hs
  unfold UpdateTodo
  rw [hv]
  simp only []
  rw [hload, hfound]
  have hne : ¬ (Int.ofNat i = -1) := by
    intro hc
    have h0 : (0 : Int) ≤ Int.ofNat i := Int.ofNat_nonneg i
    rw [hc] at h0
    norm_num at h0
  rw [if_neg hne]
  have htn : (Int.ofNat i).toNat = i := rfl
  rw [htn]
  rfl

/-! The running-maximum fold inside `getNextID`. -/

lemma foldl_step_init_le (l : List Todo) (acc : Int) :
    acc ≤ l.foldl (fun maxID todo => if todo.ID > maxID then todo.ID else maxID) acc := by
  induction l generalizing acc with
  | nil => exact le_rfl
  | cons a l ih =>
    have hstep : acc ≤ (if a.ID > acc then a.ID else acc) := by
      split
      · omega
      · exact le_rfl
    exact le_trans hstep (ih _)

lemma foldl_step_mem_le (l : List Todo) (acc : Int) :
    ∀ x ∈ l, x.ID ≤ l.foldl (fun maxID todo => if todo.ID > maxID then todo.ID else maxID) acc := by
  induction l generalizing acc with
  | nil => intro x hx; cases hx
  | cons a l ih =>
    intro x hx
    rcases List.mem_cons.mp hx with rfl | hx2
    · have hstep : x.ID ≤ (if x.ID > acc then x.ID else acc) := by
        split
        · exact le_rfl
        · omega
      exact le_trans hstep (foldl_step_init_le l _)
    · exact ih _ x hx2

lemma foldl_step_cases (l : List Todo) (acc : Int) :
    l.foldl (fun maxID todo => if todo.ID > maxID then todo.ID else maxID) acc = acc ∨
      ∃ x ∈ l, l.foldl (fun maxID todo => if todo.ID > maxID then todo.ID else maxID) acc = x.ID := by
  induction l generalizing acc with
  | nil => exact Or.inl rfl
  | cons a l ih =>
    rcases ih (if a.ID > acc then a.ID else acc) with h | ⟨x, hx, hfx⟩
    · by_cases hcmp : a.ID > acc
      · right
        refine ⟨a, List.mem_cons_self a l, ?_⟩
        rw [List.foldl_cons, h, if_pos hcmp]
      · left
        rw [List.foldl_cons, h, if_neg hcmp]
    · exact Or.inr ⟨x, List.mem_cons_of_mem a hx, hfx⟩

end TodoService

open TodoService

/-! The claims. Each theorem formalises one numbered claim of the
specification against the embedding above. -/

/-- C1: for every sequence strictly ascending by identifier and every
identifier `t`, `binarySearchTodoByID` returns an index whose record carries
identifier `t`, or returns `-1` exactly when no record in the sequence
carries `t`. -/
theorem claim_C1_find_correct (S : List Todo) (t : Int) (hs : StrictAsc S) :
    (binarySearchTodoByID S t = -1 ↔ ∀ x ∈ S, x.ID ≠ t) ∧
    (binarySearchTodoByID S t ≠ -1 →
      ∃ i : Nat, binarySearchTodoByID S t = Int.ofNat i ∧ i < S.length ∧
        (S.getD i default).ID = t) :=
  ⟨binarySearch_neg_one_iff S t hs, binarySearch_found S t⟩

/-- Witness for C1 at the sequence `[1,3,5]` and target `3`. -/
theorem claim_C1_find_correct_witness :
    (binarySearchTodoByID [⟨1,"a"⟩,⟨3,"b"⟩,⟨5,"c"⟩] 3 = -1 ↔
      ∀ x ∈ [(⟨1,"a"⟩ : Todo),⟨3,"b"⟩,⟨5,"c"⟩], x.ID ≠ 3) ∧
    (binarySearchTodoByID [⟨1,"a"⟩,⟨3,"b"⟩,⟨5,"c"⟩] 3 ≠ -1 →
      ∃ i : Nat, binarySearchTodoByID [⟨1,"a"⟩,⟨3,"b"⟩,⟨5,"c"⟩] 3 = Int.ofNat i ∧
        i < ([(⟨1,"a"⟩ : Todo),⟨3,"b"⟩,⟨5,"c"⟩]).length ∧
        (([(⟨1,"a"⟩ : Todo),⟨3,"b"⟩,⟨5,"c"⟩]).getD i default).ID = 3) :=
  claim_C1_find_correct [⟨1,"a"⟩,⟨3,"b"⟩,⟨5,"c"⟩] 3 (by decide)

/-- C2: inserting a record whose identifier is absent from a strictly
ascending sequence yields a strictly ascending sequence one longer, a
permutation of the old sequence plus the new record, equal to the old prefix
before the insertion point, then the record, then the old suffix. -/
theorem claim_C2_insert_sorted (S : List Todo) (r : Todo) (hs : StrictAsc S)
    (hnot : ∀ x ∈ S, x.ID ≠ r.ID) :
    StrictAsc (insertTodoSorted S r) ∧
    (insertTodoSorted S r).length = S.length + 1 ∧
    (insertTodoSorted S r).Perm (r :: S) ∧
    insertionPoint S r.ID ≤ S.length ∧
    insertTodoSorted S r =
      S.take (insertionPoint S r.ID) ++ r :: S.drop (insertionPoint S r.ID) :=
  ⟨insertSorted_strictAsc S r hs hnot, insertSorted_length S r hs,
    insertSorted_perm S r, (insertionPoint_spec S r.ID hs).1, insertTodoSorted_eq S r⟩

/-- Witness for C2 at the sequence `[1,3]` and the record with identifier 2. -/
theorem claim_C2_insert_sorted_witness :
    StrictAsc (insertTodoSorted [⟨1,"a"⟩,⟨3,"b"⟩] ⟨2,"x"⟩) ∧
    (insertTodoSorted [⟨1,"a"⟩,⟨3,"b"⟩] ⟨2,"x"⟩).length =
      ([(⟨1,"a"⟩ : Todo),⟨3,"b"⟩]).length + 1 ∧
    (insertTodoSorted [⟨1,"a"⟩,⟨3,"b"⟩] ⟨2,"x"⟩).Perm (⟨2,"x"⟩ :: [⟨1,"a"⟩,⟨3,"b"⟩]) ∧
    insertionPoint [⟨1,"a"⟩,⟨3,"b"⟩] (Todo.mk 2 "x").ID ≤
      ([(⟨1,"a"⟩ : Todo),⟨3,"b"⟩]).length ∧
    insertTodoSorted [⟨1,"a"⟩,⟨3,"b"⟩] ⟨2,"x"⟩ =
      ([(⟨1,"a"⟩ : Todo),⟨3,"b"⟩]).take (insertionPoint [⟨1,"a"⟩,⟨3,"b"⟩] (Todo.mk 2 "x").ID) ++
        ⟨2,"x"⟩ :: ([(⟨1,"a"⟩ : Todo),⟨3,"b"⟩]).drop
          (insertionPoint [⟨1,"a"⟩,⟨3,"b"⟩] (Todo.mk 2 "x").ID) :=
  claim_C2_insert_sorted [⟨1,"a"⟩,⟨3,"b"⟩] ⟨2,"x"⟩ (by decide) (by decide)

/-- C3: loading immediately after saving a strictly ascending sequence on the
same backing store returns that sequence, same elements in the same order. -/
theorem claim_C3_save_load_roundtrip (S : List Todo) (store : Store)
    (hs : StrictAsc S) :
    loadTodos (saveTodos S store) = S := by
  show sortByID S = S
  exact sortByID_of_sorted (strictAsc_weaken hs)

/-- Witness for C3 at the sequence `[1,2]` over a non-empty prior store. -/
theorem claim_C3_save_load_roundtrip_witness :
    loadTodos (saveTodos [⟨1,"a"⟩,⟨2,"b"⟩] (some [⟨9,"z"⟩])) = [⟨1,"a"⟩,⟨2,"b"⟩] :=
  claim_C3_save_load_roundtrip [⟨1,"a"⟩,⟨2,"b"⟩] (some [⟨9,"z"⟩]) (by decide)

/-- C4: the code locks `loadTodos` and `saveTodos` separately instead of
wrapping each write's load→mutate→save cycle in one exclusive section, so the
admitted schedule load₁, load₂, save₁, save₂ of two concurrent creates on an
empty store loses the first create's record: the interleaved run ends with
one record where the serial run ends with two. -/
theorem claim_C4_lost_update :
    interleavedCreate2 ⟨"buy milk"⟩ ⟨"walk dog"⟩ none = some [⟨1, "walk dog"⟩] ∧
    sequentialCreate2 ⟨"buy milk"⟩ ⟨"walk dog"⟩ none =
      some [⟨1, "buy milk"⟩, ⟨2, "walk dog"⟩] ∧
    interleavedCreate2 ⟨"buy milk"⟩ ⟨"walk dog"⟩ none ≠
      sequentialCreate2 ⟨"buy milk"⟩ ⟨"walk dog"⟩ none := by
  refine ⟨?_, ?_, ?_⟩ <;>
    simp only [interleavedCreate2, sequentialCreate2, CreateTodo, createMutate,
      insertTodoSorted, binarySearch_eval, insertionPoint_eval] <;>
    decide

/-- C5: the allocator answer exceeds every identifier in the sequence, is 1
on the empty sequence, and on a non-empty sequence of positive identifiers is
some element's identifier plus one (together: 1 plus the maximum, default 0);
concretely, create on an empty store assigns 1, the next create assigns 2,
and after deleting record 1 a further create assigns 3. -/
theorem claim_C5_next_id (todos : List Todo) (hpos : ∀ x ∈ todos, 0 < x.ID) :
    (∀ x ∈ todos, x.ID < getNextID todos) ∧
    (todos = [] → getNextID todos = 1) ∧
    (todos ≠ [] → ∃ x ∈ todos, getNextID todos = x.ID + 1) ∧
    CreateTodo ⟨"t1"⟩ none = (.ok ⟨1, "t1"⟩, some [⟨1, "t1"⟩]) ∧
    CreateTodo ⟨"t2"⟩ (some [⟨1, "t1"⟩]) =
      (.ok ⟨2, "t2"⟩, some [⟨1, "t1"⟩, ⟨2, "t2"⟩]) ∧
    DeleteTodo 1 (some [⟨1, "t1"⟩, ⟨2, "t2"⟩]) = (.ok (), some [⟨2, "t2"⟩]) ∧
    CreateTodo ⟨"t3"⟩ (some [⟨2, "t2"⟩]) =
      (.ok ⟨3, "t3"⟩, some [⟨2, "t2"⟩, ⟨3, "t3"⟩]) := by
  refine ⟨?_, ?_, ?_, ?_, ?_, ?_, ?_⟩
  · intro x hx
    have h1 := foldl_step_mem_le todos 0 x hx
    unfold getNextID
    omega
  · intro h
    subst h
    rfl
  · intro hne
    rcases foldl_step_cases todos 0 with h | ⟨x, hx, hfx⟩
    · exfalso
      obtain ⟨y, hy⟩ := List.exists_mem_of_ne_nil todos hne
      have h1 := foldl_step_mem_le todos 0 y hy
      have h2 := hpos y hy
      omega
    · refine ⟨x, hx, ?_⟩
      unfold getNextID
      rw [hfx]
  · simp only [CreateTodo, insertTodoSorted, insertionPoint_eval]
    decide
  · simp only [CreateTodo, insertTodoSorted, insertionPoint_eval]
    decide
  · simp only [DeleteTodo, binarySearch_eval]
    decide
  · simp only [CreateTodo, insertTodoSorted, insertionPoint_eval]
    decide

/-- Witness for C5 at the singleton sequence with identifier 2. -/
theorem claim_C5_next_id_witness :
    (∀ x ∈ [(⟨2,"b"⟩ : Todo)], x.ID < getNextID [⟨2,"b"⟩]) ∧
    ([(⟨2,"b"⟩ : Todo)] = [] → getNextID [⟨2,"b"⟩] = 1) ∧
    ([(⟨2,"b"⟩ : Todo)] ≠ [] → ∃ x ∈ [(⟨2,"b"⟩ : Todo)], getNextID [⟨2,"b"⟩] = x.ID + 1) ∧
    CreateTodo ⟨"t1"⟩ none = (.ok ⟨1, "t1"⟩, some [⟨1, "t1"⟩]) ∧
    CreateTodo ⟨"t2"⟩ (some [⟨1, "t1"⟩]) =
      (.ok ⟨2, "t2"⟩, some [⟨1, "t1"⟩, ⟨2, "t2"⟩]) ∧
    DeleteTodo 1 (some [⟨1, "t1"⟩, ⟨2, "t2"⟩]) = (.ok (), some [⟨2, "t2"⟩]) ∧
    CreateTodo ⟨"t3"⟩ (some [⟨2, "t2"⟩]) =
      (.ok ⟨3, "t3"⟩, some [⟨2, "t2"⟩, ⟨3, "t3"⟩]) :=
  claim_C5_next_id [⟨2,"b"⟩] (by decide)

/-- C6: every sequence a load returns is sorted ascending by identifier
whatever the stored order was; concretely, a store holding `[2,1]` loads as
`[1,2]`. -/
theorem claim_C6_load_sorted :
    (∀ store : Store, (loadTodos store).Pairwise (fun a b => a.ID ≤ b.ID)) ∧
    loadTodos (some [⟨2,"b"⟩, ⟨1,"a"⟩]) = [⟨1,"a"⟩, ⟨2,"b"⟩] := by
  constructor
  · intro store
    cases store with
    | none => exact List.Pairwise.nil
    | some l => exact sortByID_sorted l
  · decide

/-- C7: excising the element at a valid index of a strictly ascending
sequence leaves a strictly ascending sequence, and searching it for the
removed record's identifier answers absent. -/
theorem claim_C7_remove_find_absent (S : List Todo) (i : Nat) (hs : StrictAsc S)
    (hi : i < S.length) :
    StrictAsc (removeAt S i) ∧
    binarySearchTodoByID (removeAt S i) ((S.getD i default).ID) = -1 := by
  have h1 := removeAt_strictAsc S i hs
  refine ⟨h1, ?_⟩
  rw [binarySearch_neg_one_iff _ _ h1]
  exact removeAt_id_not_mem S i hs hi

/-- Witness for C7 at the sequence `[1,2,3]`, removing index 1. -/
theorem claim_C7_remove_find_absent_witness :
    StrictAsc (removeAt [⟨1,"a"⟩,⟨2,"b"⟩,⟨3,"c"⟩] 1) ∧
    binarySearchTodoByID (removeAt [⟨1,"a"⟩,⟨2,"b"⟩,⟨3,"c"⟩] 1)
      ((([(⟨1,"a"⟩ : Todo),⟨2,"b"⟩,⟨3,"c"⟩]).getD 1 default).ID) = -1 :=
  claim_C7_remove_find_absent [⟨1,"a"⟩,⟨2,"b"⟩,⟨3,"c"⟩] 1 (by decide) (by decide)

/-- C8: creating from contents that trim to empty fails with the validation
error and returns the store unchanged. -/
theorem claim_C8_create_validation (req : TodoRequest) (store : Store)
    (h : trimSpace req.Contents = "") :
    CreateTodo req store = (.error (.validation "contents cannot be empty"), store) := by
  unfold CreateTodo validateTodoRequest
  rw [if_pos h]

/-- Witness for C8 at whitespace-only contents over a non-empty store. -/
theorem claim_C8_create_validation_witness :
    CreateTodo ⟨"   "⟩ (some [⟨1,"a"⟩]) =
      (.error (.validation "contents cannot be empty"), some [⟨1,"a"⟩]) :=
  claim_C8_create_validation ⟨"   "⟩ (some [⟨1,"a"⟩]) (by decide)

/-- C9: updating an identifier present in a stored strictly ascending
sequence with valid contents replaces only that record's contents: the
record keeps its identifier, every other position is unchanged, and the
length and the identifier order of the sequence are preserved. -/
theorem claim_C9_update_frame (S : List Todo) (t : Int) (req : TodoRequest)
    (hs : StrictAsc S) (hmem : ∃ x ∈ S, x.ID = t)
    (hvalid : trimSpace req.Contents ≠ "") :
    ∃ i : Nat, i < S.length ∧ (S.getD i default).ID = t ∧
      UpdateTodo t req (some S) =
        (.ok ⟨t, trimSpace req.Contents⟩, some (S.set i ⟨t, trimSpace req.Contents⟩)) ∧
      (S.set i ⟨t, trimSpace req.Contents⟩).length = S.length ∧
      (∀ j : Nat, j < S.length → j ≠ i →
        (S.set i ⟨t, trimSpace req.Contents⟩).getD j default = S.getD j default) ∧
      (S.set i ⟨t, trimSpace req.Contents⟩).map Todo.ID = S.map Todo.ID := by
  have hne : binarySearchTodoByID S t ≠ -1 := by
    intro hc
    rw [binarySearch_neg_one_iff S t hs] at hc
    obtain ⟨x, hx, hxt⟩ := hmem
    exact hc x hx hxt
  obtain ⟨i, hfound, hi, hit⟩ := binarySearch_found S t hne
  refine ⟨i, hi, hit, ?_, by simp, ?_, ?_⟩
  · have heval := updateTodo_eval S t req hs hvalid i hi hfound
    rw [heval, hit, getD_set_self S i _ hi]
  · intro j hj hji
    exact getD_set_ne S i j _ hj (fun hc => hji hc.symm)
  · have hmap := map_id_set S i hi (trimSpace req.Contents)
    rw [hit] at hmap
    exact hmap

/-- Witness for C9 at the stored sequence `[1,2]`, updating identifier 1. -/
theorem claim_C9_update_frame_witness :
    ∃ i : Nat, i < ([(⟨1,"a"⟩ : Todo),⟨2,"b"⟩]).length ∧
      (([(⟨1,"a"⟩ : Todo),⟨2,"b"⟩]).getD i default).ID = 1 ∧
      UpdateTodo 1 ⟨"c"⟩ (some [⟨1,"a"⟩,⟨2,"b"⟩]) =
        (.ok ⟨1, trimSpace "c"⟩,
          some (([(⟨1,"a"⟩ : Todo),⟨2,"b"⟩]).set i ⟨1, trimSpace "c"⟩)) ∧
      (([(⟨1,"a"⟩ : Todo),⟨2,"b"⟩]).set i ⟨1, trimSpace "c"⟩).length =
        ([(⟨1,"a"⟩ : Todo),⟨2,"b"⟩]).length ∧
      (∀ j : Nat, j < ([(⟨1,"a"⟩ : Todo),⟨2,"b"⟩]).length → j ≠ i →
        (([(⟨1,"a"⟩ : Todo),⟨2,"b"⟩]).set i ⟨1, trimSpace "c"⟩).getD j default =
          ([(⟨1,"a"⟩ : Todo),⟨2,"b"⟩]).getD j default) ∧
      (([(⟨1,"a"⟩ : Todo),⟨2,"b"⟩]).set i ⟨1, trimSpace "c"⟩).map Todo.ID =
        ([(⟨1,"a"⟩ : Todo),⟨2,"b"⟩]).map Todo.ID :=
  claim_C9_update_frame [⟨1,"a"⟩,⟨2,"b"⟩] 1 ⟨"c"⟩ (by decide)
    ⟨⟨1,"a"⟩, by decide, by decide⟩ (by decide)

/-- C10: a non-absent search answer is a valid index into the sequence, which
therefore is non-empty, so delete computes its shrunken copy only with a
positive length at hand; on the empty sequence the search answers absent
without any element access and delete fails NotFound leaving the store as
it was. -/
theorem claim_C10_delete_safe (todos : List Todo) (t : Int) :
    (binarySearchTodoByID todos t ≠ -1 →
      ∃ i : Nat, binarySearchTodoByID todos t = Int.ofNat i ∧ i < todos.length ∧
        1 ≤ todos.length) ∧
    binarySearchTodoByID [] t = -1 ∧
    DeleteTodo t (some []) = (.error (.notFound t), some []) := by
  refine ⟨?_, ?_, ?_⟩
  · intro h
    obtain ⟨i, h1, h2, _⟩ := binarySearch_found todos t h
    exact ⟨i, h1, h2, by omega⟩
  · rw [binarySearch_eval]
    rfl
  · simp only [DeleteTodo, binarySearch_eval]
    rfl

/-- Witness for C10 at the singleton sequence with identifier 1. -/
theorem claim_C10_delete_safe_witness :
    ∃ i : Nat, binarySearchTodoByID [⟨1,"x"⟩] 1 = Int.ofNat i ∧
      i < ([(⟨1,"x"⟩ : Todo)]).length ∧ 1 ≤ ([(⟨1,"x"⟩ : Todo)]).length :=
  (claim_C10_delete_safe [⟨1,"x"⟩] 1).1 (by rw [binarySearch_eval]; decide)
